import Mathlib

set_option maxRecDepth 100000

/-!
Verification of the todo-icp canister core.

Shallow embedding of `src/src/todo_api_backend/src/lib.rs`, the record store
of an Internet Computer canister, together with proofs about its operations.

Modelling conventions:

* `PrincipalName = Vec<u8>` becomes `List Nat`; the caller identity is passed
  explicitly to every operation (in the source it is read via `caller()`).
* The `u128` counter `NEXT_TODO` and the `u128` record ids become `Nat`.
  The source never exercises `u128` overflow: the counter advances by one per
  successful message and the id space is assumed inexhaustible, so no modular
  reduction is needed for any reachable value.
* `BTreeMap<PrincipalName, Vec<Todo>>` becomes an association list
  `List (PrincipalName × List Todo)`.  A `BTreeMap` has pairwise-distinct
  keys; the embedded operations preserve that representation invariant
  (proved below), and `keys().len()` is embedded as the list length.
* Rust `task.chars().count()` (number of Unicode scalar values) becomes
  `String.length` (number of `Char`s), which counts the same units.
* Each `assert!` site in the source aborts the message.  Raw execution is
  embedded as a function into `RunResult`, which records the state at the
  panic point.  The `#[update]` call semantics of the Internet Computer are
  applied on top: a trapped message is rolled back, so the canister keeps its
  pre-call state whenever an operation fails.  The spec's error taxonomy
  names each `assert!` site: `PayloadTooLarge`, `CapacityExceeded:Users`,
  `CapacityExceeded:RecordsPerUser`, `InvalidId`.
-/

/-- Caller identity: `type PrincipalName = Vec<u8>`. -/
abbrev PrincipalName := List Nat

/-- `pub struct Todo { id: u128, task: String }`. -/
structure Todo where
  id : Nat
  task : String
deriving DecidableEq, Repr

/-- The spec's error taxonomy, one constructor per `assert!` site. -/
inductive TodoError where
  | payloadTooLarge
  | capacityExceededUsers
  | capacityExceededRecordsPerUser
  | invalidId
deriving DecidableEq, Repr

/-- The canister state: `NEXT_TODO` and `TODO_BY_USER`. -/
structure State where
  nextTodo : Nat
  todoByUser : List (PrincipalName × List Todo)
deriving DecidableEq, Repr

/-- The initial state: counter `0`, empty map. -/
def initState : State := { nextTodo := 0, todoByUser := [] }

/-- `MAX_USERS: usize = 1_000`. -/
def MAX_USERS : Nat := 1000

/-- `MAX_TODO_PER_USER: usize = 500`. -/
def MAX_TODO_PER_USER : Nat := 500

/-- `MAX_TODO_CHARS: usize = 1000`. -/
def MAX_TODO_CHARS : Nat := 1000

/-- `BTreeMap::get`: first value stored under key `k`, if any. -/
def mapGet (m : List (PrincipalName × List Todo)) (k : PrincipalName) :
    Option (List Todo) :=
  match m with
  | [] => none
  | (k', v) :: rest => if k' = k then some v else mapGet rest k

/-- `BTreeMap::get_mut` followed by an in-place edit: apply `f` to the value
stored under `k` (the first such entry), leaving the map unchanged when `k`
is absent. -/
def mapAdjust (m : List (PrincipalName × List Todo)) (k : PrincipalName)
    (f : List Todo → List Todo) : List (PrincipalName × List Todo) :=
  match m with
  | [] => []
  | (k', v) :: rest =>
      if k' = k then (k', f v) :: rest else (k', v) :: mapAdjust rest k f

/-- `get_user_count`: `TODO_BY_USER.with(|t| t.borrow().keys().len())`.
For an association list with pairwise-distinct keys (the `BTreeMap`
representation invariant) this is the number of tenants. -/
def get_user_count (s : State) : Nat := s.todoByUser.length

/-- `is_id_valid`: `id < MAX_TODO_PER_USER * get_user_count()` (in `u128`;
the product is at most `500 * 1000` in any reachable state, far below
`2^128`, so plain `Nat` arithmetic is exact). -/
def is_id_valid (s : State) (id : Nat) : Bool :=
  id < MAX_TODO_PER_USER * get_user_count s

/-- `get_todos` (a `#[query]`): the caller's list, or `[]` for an unknown
caller (`cloned().unwrap_or_default()`). -/
def get_todos (user : PrincipalName) (s : State) : List Todo :=
  (mapGet s.todoByUser user).getD []

/-- Outcome of running an update method's Rust body: either the final state,
or a panic at some `assert!` together with the state at the panic point. -/
inductive RunResult where
  | ok : State → RunResult
  | panic : TodoError → State → RunResult
deriving DecidableEq, Repr

/-- Raw body of `add_todo(task)`, statement by statement:
1. `assert!(task.chars().count() <= MAX_TODO_CHARS)`;
2. increment `NEXT_TODO` and keep the new value as `todo_id`;
3. read `user_count = get_user_count()`;
4. `entry(user).or_insert_with(...)`: when the caller is new, the closure
   asserts `user_count < MAX_USERS` before the empty entry is inserted;
5. `assert!(user_todos.len() < MAX_TODO_PER_USER)` on the (possibly freshly
   inserted, hence empty) entry;
6. push `Todo { id: todo_id, task }`. -/
def add_todo_run (user : PrincipalName) (task : String) (s : State) :
    RunResult :=
  if MAX_TODO_CHARS < task.length then .panic .payloadTooLarge s else
  let todo_id := s.nextTodo + 1
  let s1 : State := { s with nextTodo := todo_id }
  let user_count := get_user_count s1
  match mapGet s1.todoByUser user with
  | none =>
      if user_count < MAX_USERS then
        -- `or_insert_with` inserts `vec![]`; its length `0` passes the
        -- per-user check, after which the new record is pushed.
        if (0 : Nat) < MAX_TODO_PER_USER then
          .ok { s1 with
                todoByUser :=
                  s1.todoByUser ++ [(user, [{ id := todo_id, task := task }])] }
        else
          .panic .capacityExceededRecordsPerUser
            { s1 with todoByUser := s1.todoByUser ++ [(user, [])] }
      else .panic .capacityExceededUsers s1
  | some user_todos =>
      if user_todos.length < MAX_TODO_PER_USER then
        .ok { s1 with
              todoByUser :=
                mapAdjust s1.todoByUser user
                  (fun v => v ++ [{ id := todo_id, task := task }]) }
      else .panic .capacityExceededRecordsPerUser s1

/-- Replace in place the task of the first record whose id matches `t.id`
(`iter_mut().find(|x| x.id == t.id)` followed by `old.task = t.task`). -/
def updateFirst (t : Todo) : List Todo → List Todo
  | [] => []
  | td :: rest =>
      if td.id = t.id then { td with task := t.task } :: rest
      else td :: updateFirst t rest

/-- Raw body of `update_todo(todos)`: payload check, then `is_id_valid`
check, then the in-place edit (a no-op when the caller has no matching
record). -/
def update_todo_run (user : PrincipalName) (todos : Todo) (s : State) :
    RunResult :=
  if MAX_TODO_CHARS < todos.task.length then .panic .payloadTooLarge s
  else if ¬ is_id_valid s todos.id then .panic .invalidId s
  else .ok { s with todoByUser := mapAdjust s.todoByUser user (updateFirst todos) }

/-- Raw body of `delete_todo(todo_id)`: `is_id_valid` check, then
`v.retain(|item| item.id != todo_id)` on the caller's entry. -/
def delete_todo_run (user : PrincipalName) (todo_id : Nat) (s : State) :
    RunResult :=
  if ¬ is_id_valid s todo_id then .panic .invalidId s
  else .ok { s with
             todoByUser :=
               mapAdjust s.todoByUser user
                 (fun v => v.filter (fun item => item.id ≠ todo_id)) }

/-- `#[update]` message semantics of the Internet Computer: a panic traps the
message and every state change it made is rolled back, so the caller observes
the error and the canister keeps the pre-call state. -/
def commit : RunResult → Except TodoError State
  | .ok s' => .ok s'
  | .panic e _ => .error e

/-- The `add_todo` update call as observed by the rest of the system. -/
def add_todo (user : PrincipalName) (task : String) (s : State) :
    Except TodoError State :=
  commit (add_todo_run user task s)

/-- The `update_todo` update call as observed by the rest of the system. -/
def update_todo (user : PrincipalName) (todos : Todo) (s : State) :
    Except TodoError State :=
  commit (update_todo_run user todos s)

/-- The `delete_todo` update call as observed by the rest of the system. -/
def delete_todo (user : PrincipalName) (todo_id : Nat) (s : State) :
    Except TodoError State :=
  commit (delete_todo_run user todo_id s)

/-- The caller-visible reply of `add_todo`: the source signature is
`fn add_todo(task: String)`, so a successful call replies with the unit
value; no record payload is returned. -/
def add_todo_reply (user : PrincipalName) (task : String) (s : State) :
    Except TodoError Unit :=
  match add_todo_run user task s with
  | .ok _ => .ok ()
  | .panic e _ => .error e

/-- One external operation (the caller identity is explicit). -/
inductive Op where
  | addOp (user : PrincipalName) (task : String)
  | updateOp (user : PrincipalName) (todos : Todo)
  | deleteOp (user : PrincipalName) (todo_id : Nat)
  | listOp (user : PrincipalName)
deriving DecidableEq, Repr

/-- Canister state after one operation: queries never change the state, and
a trapped update call is rolled back to the pre-call state. -/
def applyOp (o : Op) (s : State) : State :=
  match o with
  | .addOp u t =>
      match add_todo u t s with
      | .ok s' => s'
      | .error _ => s
  | .updateOp u td =>
      match update_todo u td s with
      | .ok s' => s'
      | .error _ => s
  | .deleteOp u i =>
      match delete_todo u i s with
      | .ok s' => s'
      | .error _ => s
  | .listOp _ => s

/-- Canister state after a sequence of operations. -/
def run (ops : List Op) (s : State) : State :=
  ops.foldl (fun s o => applyOp o s) s

/-- The ids handed out by the Identity Allocator during a sequence of
operations, in order: every successful `add_todo` issues exactly one id (the
freshly incremented counter value); failed calls and the other operations
issue none. -/
def issuedIds : List Op → State → List Nat
  | [], _ => []
  | o :: rest, s =>
      (match o with
       | .addOp u t =>
           match add_todo u t s with
           | .ok s' => [s'.nextTodo]
           | .error _ => []
       | _ => []) ++ issuedIds rest (applyOp o s)

/-- All record ids currently stored, tenant by tenant. -/
def idsOf (m : List (PrincipalName × List Todo)) : List Nat :=
  (m.map (fun p => p.2.map Todo.id)).flatten

/-- State invariant maintained by every operation (spec I1-I4 plus the
`BTreeMap` representation invariant and the counter bound that ties stored
ids to the Identity Allocator). -/
def StoreInv (s : State) : Prop :=
  get_user_count s ≤ MAX_USERS ∧
  (∀ p ∈ s.todoByUser, p.2.length ≤ MAX_TODO_PER_USER) ∧
  (∀ p ∈ s.todoByUser, ∀ td ∈ p.2, td.task.length ≤ MAX_TODO_CHARS) ∧
  (∀ i ∈ idsOf s.todoByUser, i ≤ s.nextTodo) ∧
  (idsOf s.todoByUser).Nodup ∧
  (s.todoByUser.map Prod.fst).Nodup

/-- A 1001-character task, one character over `MAX_TODO_CHARS`. -/
def longTask : String := String.mk (List.replicate 1001 'a')

/-- A store with `n` distinct one-byte-identity tenants, one record each. -/
def manyUsers (n : Nat) : List (PrincipalName × List Todo) :=
  (List.range n).map (fun i => ([i], [{ id := i, task := "t" }]))

/-- A store already holding `MAX_USERS` distinct tenants. -/
def fullState : State := { nextTodo := 1000, todoByUser := manyUsers 1000 }

/-- A store one tenant short of `MAX_USERS`. -/
def almostFullState : State := { nextTodo := 999, todoByUser := manyUsers 999 }

/-- A one-tenant store: tenant `[7]` owns the single record `⟨3, "keep"⟩`. -/
def oneUserState : State :=
  { nextTodo := 3, todoByUser := [([7], [{ id := 3, task := "keep" }])] }

/-- 500 consecutive `add_todo` calls by the same caller `[0]`. -/
def fiveHundredAdds : List Op := List.replicate 500 (.addOp [0] "a")

/-- The records held by caller `[0]` after its first `n` successful adds of
the text `"a"`: ids `1, …, n`. -/
def chainTodos (n : Nat) : List Todo :=
  (List.range' 1 n).map (fun j => { id := j, task := "a" })

/-- The store after caller `[0]` performed `n ≥ 1` successful adds of the
text `"a"` from the initial state. -/
def chainState (n : Nat) : State :=
  { nextTodo := n, todoByUser := [([0], chainTodos n)] }

/-- The store after `add_todo("hello")` by caller `[0]` from the initial
state. -/
def helloState : State :=
  { nextTodo := 1, todoByUser := [([0], [{ id := 1, task := "hello" }])] }

/-- `oneUserState` after `update_todo({3, "new"})` by caller `[7]`. -/
def oneUserStateUpdated : State :=
  { nextTodo := 3, todoByUser := [([7], [{ id := 3, task := "new" }])] }

/-- `oneUserState` after `delete_todo(3)` by caller `[7]`. -/
def oneUserStateDeleted : State :=
  { nextTodo := 3, todoByUser := [([7], ([] : List Todo))] }

example : add_todo [0] "hello" initState =
    .ok { nextTodo := 1, todoByUser := [([0], [{ id := 1, task := "hello" }])] } := rfl

example : get_todos [0] (run [.addOp [0] "a", .addOp [0] "b"] initState) =
    [{ id := 1, task := "a" }, { id := 2, task := "b" }] := by
  decide

example : issuedIds [.addOp [0] "a", .listOp [1], .addOp [2] "b"] initState = [1, 2] := by
  decide

/-! ## Association-list lemmas -/

theorem mapGet_mapAdjust_self (m : List (PrincipalName × List Todo))
    (k : PrincipalName) (f : List Todo → List Todo) :
    mapGet (mapAdjust m k f) k = (mapGet m k).map f := by
  induction m with
  | nil => rfl
  | cons p rest ih =>
      obtain ⟨k', v⟩ := p
      by_cases h : k' = k <;> simp [mapAdjust, mapGet, h, ih]

theorem mapGet_mapAdjust_ne (m : List (PrincipalName × List Todo))
    (k v : PrincipalName) (f : List Todo → List Todo) (h : v ≠ k) :
    mapGet (mapAdjust m k f) v = mapGet m v := by
  induction m with
  | nil => rfl
  | cons p rest ih =>
      obtain ⟨k', w⟩ := p
      by_cases h1 : k' = k
      · subst h1
        have h2 : k' ≠ v := fun hv => h (hv ▸ rfl)
        simp [mapAdjust, mapGet, h2]
      · by_cases h2 : k' = v <;> simp [mapAdjust, mapGet, h1, h2, h, ih]

theorem mapAdjust_of_none (m : List (PrincipalName × List Todo))
    (k : PrincipalName) (f : List Todo → List Todo)
    (h : mapGet m k = none) : mapAdjust m k f = m := by
  induction m with
  | nil => rfl
  | cons p rest ih =>
      obtain ⟨k', v⟩ := p
      by_cases h1 : k' = k
      · simp [mapGet, h1] at h
      · simp [mapGet, h1] at h
        simp [mapAdjust, h1, ih h]

theorem mapAdjust_keys (m : List (PrincipalName × List Todo))
    (k : PrincipalName) (f : List Todo → List Todo) :
    (mapAdjust m k f).map Prod.fst = m.map Prod.fst := by
  induction m with
  | nil => rfl
  | cons p rest ih =>
      obtain ⟨k', v⟩ := p
      by_cases h : k' = k <;> simp [mapAdjust, h, ih]

theorem mapAdjust_length (m : List (PrincipalName × List Todo))
    (k : PrincipalName) (f : List Todo → List Todo) :
    (mapAdjust m k f).length = m.length := by
  have := congrArg List.length (mapAdjust_keys m k f)
  simpa using this

theorem mem_mapAdjust (m : List (PrincipalName × List Todo))
    (k : PrincipalName) (f : List Todo → List Todo)
    (p : PrincipalName × List Todo) (hp : p ∈ mapAdjust m k f) :
    p ∈ m ∨ ∃ v, mapGet m k = some v ∧ (k, v) ∈ m ∧ p = (k, f v) := by
  induction m with
  | nil => simp [mapAdjust] at hp
  | cons q rest ih =>
      obtain ⟨k', v⟩ := q
      by_cases h : k' = k
      · subst h
        simp [mapAdjust] at hp
        rcases hp with heq | hmem
        · exact Or.inr ⟨v, by simp [mapGet], by simp, heq⟩
        · exact Or.inl (List.mem_cons_of_mem _ hmem)
      · simp [mapAdjust, h] at hp
        rcases hp with heq | hmem
        · exact Or.inl (by simp [heq])
        · rcases ih hmem with h1 | ⟨w, hw, hw1, hw2⟩
          · exact Or.inl (List.mem_cons_of_mem _ h1)
          · exact Or.inr ⟨w, by simp [mapGet, h, hw], List.mem_cons_of_mem _ hw1, hw2⟩

theorem mapGet_mem (m : List (PrincipalName × List Todo))
    (k : PrincipalName) (v : List Todo) (h : mapGet m k = some v) :
    (k, v) ∈ m := by
  induction m with
  | nil => simp [mapGet] at h
  | cons p rest ih =>
      obtain ⟨k', w⟩ := p
      by_cases h1 : k' = k
      · subst h1
        simp [mapGet] at h
        simp [h]
      · simp [mapGet, h1] at h
        exact List.mem_cons_of_mem _ (ih h)

theorem mapGet_none_not_mem_keys (m : List (PrincipalName × List Todo))
    (k : PrincipalName) (h : mapGet m k = none) :
    k ∉ m.map Prod.fst := by
  induction m with
  | nil => simp
  | cons p rest ih =>
      obtain ⟨k', w⟩ := p
      by_cases h1 : k' = k
      · simp [mapGet, h1] at h
      · simp [mapGet, h1] at h
        have h2 : k ≠ k' := fun hh => h1 hh.symm
        simp [ih h, h2]

theorem mapGet_append_self (m : List (PrincipalName × List Todo))
    (u : PrincipalName) (l : List Todo) (h : mapGet m u = none) :
    mapGet (m ++ [(u, l)]) u = some l := by
  induction m with
  | nil => simp [mapGet]
  | cons p rest ih =>
      obtain ⟨k', v⟩ := p
      by_cases h1 : k' = u
      · simp [mapGet, h1] at h
      · simp [mapGet, h1] at h ⊢
        exact ih h

theorem mapGet_append_ne (m : List (PrincipalName × List Todo))
    (u v : PrincipalName) (l : List Todo) (h : v ≠ u) :
    mapGet (m ++ [(u, l)]) v = mapGet m v := by
  induction m with
  | nil => simp [mapGet, Ne.symm h]
  | cons p rest ih =>
      obtain ⟨k', w⟩ := p
      by_cases h1 : k' = v <;> simp [mapGet, h1, ih]

/-! ## `updateFirst` lemmas -/

theorem updateFirst_map_id (t : Todo) (l : List Todo) :
    (updateFirst t l).map Todo.id = l.map Todo.id := by
  induction l with
  | nil => rfl
  | cons td rest ih =>
      by_cases h : td.id = t.id <;> simp [updateFirst, h, ih]

theorem updateFirst_length (t : Todo) (l : List Todo) :
    (updateFirst t l).length = l.length := by
  have := congrArg List.length (updateFirst_map_id t l)
  simpa using this

theorem updateFirst_of_not_mem (t : Todo) (l : List Todo)
    (h : ∀ td ∈ l, td.id ≠ t.id) : updateFirst t l = l := by
  induction l with
  | nil => rfl
  | cons td rest ih =>
      have h1 : td.id ≠ t.id := h td (by simp)
      simp [updateFirst, h1, ih (fun x hx => h x (List.mem_cons_of_mem _ hx))]

theorem mem_updateFirst (t : Todo) (l : List Todo) (x : Todo)
    (hx : x ∈ updateFirst t l) :
    x ∈ l ∨ ∃ y ∈ l, x = { id := y.id, task := t.task } := by
  induction l with
  | nil => simp [updateFirst] at hx
  | cons td rest ih =>
      by_cases h : td.id = t.id
      · simp only [updateFirst, if_pos h, List.mem_cons] at hx
        rcases hx with hx | hx
        · exact Or.inr ⟨td, by simp, hx⟩
        · exact Or.inl (List.mem_cons_of_mem _ hx)
      · simp only [updateFirst, if_neg h, List.mem_cons] at hx
        rcases hx with hx | hx
        · exact Or.inl (by simp [hx])
        · rcases ih hx with h1 | ⟨y, hy, hy2⟩
          · exact Or.inl (List.mem_cons_of_mem _ h1)
          · exact Or.inr ⟨y, List.mem_cons_of_mem _ hy, hy2⟩

theorem updateFirst_getElem?_of_ne (t : Todo) (l : List Todo) (j : Nat)
    (td0 : Todo) (hj : l[j]? = some td0) (hne : td0.id ≠ t.id) :
    (updateFirst t l)[j]? = some td0 := by
  induction l generalizing j with
  | nil => simp at hj
  | cons td rest ih =>
      cases j with
      | zero =>
          simp at hj
          subst hj
          simp [updateFirst, hne]
      | succ j =>
          simp at hj
          by_cases h : td.id = t.id <;> simp [updateFirst, h, hj, ih j hj]

theorem updateFirst_getElem?_first (t : Todo) (l : List Todo) (j : Nat)
    (td0 : Todo) (hj : l[j]? = some td0) (hid : td0.id = t.id)
    (hfirst : ∀ k td1, k < j → l[k]? = some td1 → td1.id ≠ t.id) :
    (updateFirst t l)[j]? = some { id := td0.id, task := t.task } := by
  induction l generalizing j with
  | nil => simp at hj
  | cons td rest ih =>
      cases j with
      | zero =>
          simp at hj
          subst hj
          simp [updateFirst, hid]
      | succ j =>
          simp at hj
          have hhead : td.id ≠ t.id := hfirst 0 td (Nat.succ_pos j) (by simp)
          have htail : ∀ k td1, k < j → rest[k]? = some td1 → td1.id ≠ t.id := by
            intro k td1 hk hget
            exact hfirst (k + 1) td1 (Nat.succ_lt_succ hk) (by simpa using hget)
          simp [updateFirst, hhead, ih j hj htail]

/-! ## `idsOf` lemmas -/

theorem idsOf_nil : idsOf [] = [] := rfl

theorem idsOf_cons (p : PrincipalName × List Todo)
    (m : List (PrincipalName × List Todo)) :
    idsOf (p :: m) = p.2.map Todo.id ++ idsOf m := by
  simp [idsOf]

theorem idsOf_append (m1 m2 : List (PrincipalName × List Todo)) :
    idsOf (m1 ++ m2) = idsOf m1 ++ idsOf m2 := by
  simp [idsOf]

theorem mem_idsOf (m : List (PrincipalName × List Todo)) (i : Nat) :
    i ∈ idsOf m ↔ ∃ p ∈ m, ∃ td ∈ p.2, td.id = i := by
  simp only [idsOf, List.mem_flatten, List.mem_map]
  constructor
  · rintro ⟨l, ⟨p, hp, rfl⟩, hi⟩
    rcases List.mem_map.mp hi with ⟨td, htd, rfl⟩
    exact ⟨p, hp, td, htd, rfl⟩
  · rintro ⟨p, hp, td, htd, rfl⟩
    exact ⟨p.2.map Todo.id, ⟨p, hp, rfl⟩, List.mem_map_of_mem _ htd⟩

theorem idsOf_mapAdjust_congr (m : List (PrincipalName × List Todo))
    (k : PrincipalName) (f : List Todo → List Todo)
    (hf : ∀ v, (f v).map Todo.id = v.map Todo.id) :
    idsOf (mapAdjust m k f) = idsOf m := by
  induction m with
  | nil => rfl
  | cons p rest ih =>
      obtain ⟨k', v⟩ := p
      by_cases h : k' = k <;> simp [mapAdjust, h, idsOf_cons, ih, hf]

theorem idsOf_mapAdjust_sublist (m : List (PrincipalName × List Todo))
    (k : PrincipalName) (f : List Todo → List Todo)
    (hf : ∀ v, List.Sublist ((f v).map Todo.id) (v.map Todo.id)) :
    List.Sublist (idsOf (mapAdjust m k f)) (idsOf m) := by
  induction m with
  | nil => exact List.Sublist.refl _
  | cons p rest ih =>
      obtain ⟨k', v⟩ := p
      by_cases h : k' = k
      · simp only [mapAdjust, if_pos h, idsOf_cons]
        exact List.Sublist.append (hf v) (List.Sublist.refl _)
      · simp only [mapAdjust, if_neg h, idsOf_cons]
        exact List.Sublist.append (List.Sublist.refl _) ih

theorem idsOf_mapAdjust_push (m : List (PrincipalName × List Todo))
    (k : PrincipalName) (v : List Todo) (td : Todo)
    (hk : mapGet m k = some v) :
    List.Perm (idsOf (mapAdjust m k (fun l => l ++ [td]))) (td.id :: idsOf m) := by
  induction m with
  | nil => simp [mapGet] at hk
  | cons p rest ih =>
      obtain ⟨k', w⟩ := p
      by_cases h : k' = k
      · simp only [mapGet, if_pos h, Option.some.injEq] at hk
        subst hk
        simp only [mapAdjust, if_pos h, idsOf_cons, List.map_append, List.map_cons,
          List.map_nil, List.append_assoc, List.singleton_append]
        exact List.perm_middle
      · simp only [mapGet, if_neg h] at hk
        simp only [mapAdjust, if_neg h, idsOf_cons]
        exact (List.Perm.append_left _ (ih hk)).trans List.perm_middle

/-! ## Characterization of the three update calls -/

theorem add_todo_payload (u : PrincipalName) (t : String) (s : State)
    (h : MAX_TODO_CHARS < t.length) :
    add_todo u t s = .error .payloadTooLarge := by
  simp [add_todo, add_todo_run, commit, h]

theorem add_todo_new_ok (u : PrincipalName) (t : String) (s : State)
    (hlen : t.length ≤ MAX_TODO_CHARS)
    (hnew : mapGet s.todoByUser u = none)
    (hcount : get_user_count s < MAX_USERS) :
    add_todo u t s =
      .ok { nextTodo := s.nextTodo + 1,
            todoByUser :=
              s.todoByUser ++ [(u, [{ id := s.nextTodo + 1, task := t }])] } := by
  simp [get_user_count] at hcount
  simp [add_todo, add_todo_run, commit, get_user_count, Nat.not_lt.mpr hlen,
    hnew, hcount, MAX_TODO_PER_USER]

theorem add_todo_users_full (u : PrincipalName) (t : String) (s : State)
    (hlen : t.length ≤ MAX_TODO_CHARS)
    (hnew : mapGet s.todoByUser u = none)
    (hcount : ¬ get_user_count s < MAX_USERS) :
    add_todo u t s = .error .capacityExceededUsers := by
  simp [get_user_count] at hcount
  simp [add_todo, add_todo_run, commit, get_user_count, Nat.not_lt.mpr hlen,
    hnew, Nat.not_lt.mpr hcount]

theorem add_todo_old_ok (u : PrincipalName) (t : String) (s : State)
    (v : List Todo)
    (hlen : t.length ≤ MAX_TODO_CHARS)
    (hold : mapGet s.todoByUser u = some v)
    (hroom : v.length < MAX_TODO_PER_USER) :
    add_todo u t s =
      .ok { nextTodo := s.nextTodo + 1,
            todoByUser :=
              mapAdjust s.todoByUser u
                (fun l => l ++ [{ id := s.nextTodo + 1, task := t }]) } := by
  simp [add_todo, add_todo_run, commit, Nat.not_lt.mpr hlen, hold, hroom]

theorem add_todo_user_full (u : PrincipalName) (t : String) (s : State)
    (v : List Todo)
    (hlen : t.length ≤ MAX_TODO_CHARS)
    (hold : mapGet s.todoByUser u = some v)
    (hroom : ¬ v.length < MAX_TODO_PER_USER) :
    add_todo u t s = .error .capacityExceededRecordsPerUser := by
  simp [add_todo, add_todo_run, commit, Nat.not_lt.mpr hlen, hold, hroom]

theorem update_todo_payload (u : PrincipalName) (td : Todo) (s : State)
    (h : MAX_TODO_CHARS < td.task.length) :
    update_todo u td s = .error .payloadTooLarge := by
  simp [update_todo, update_todo_run, commit, h]

theorem update_todo_invalid (u : PrincipalName) (td : Todo) (s : State)
    (hlen : td.task.length ≤ MAX_TODO_CHARS)
    (hid : is_id_valid s td.id = false) :
    update_todo u td s = .error .invalidId := by
  simp [update_todo, update_todo_run, commit, Nat.not_lt.mpr hlen, hid]

theorem update_todo_ok (u : PrincipalName) (td : Todo) (s : State)
    (hlen : td.task.length ≤ MAX_TODO_CHARS)
    (hid : is_id_valid s td.id = true) :
    update_todo u td s =
      .ok { s with todoByUser := mapAdjust s.todoByUser u (updateFirst td) } := by
  simp [update_todo, update_todo_run, commit, Nat.not_lt.mpr hlen, hid]

theorem delete_todo_invalid (u : PrincipalName) (i : Nat) (s : State)
    (hid : is_id_valid s i = false) :
    delete_todo u i s = .error .invalidId := by
  simp [delete_todo, delete_todo_run, commit, hid]

theorem delete_todo_ok (u : PrincipalName) (i : Nat) (s : State)
    (hid : is_id_valid s i = true) :
    delete_todo u i s =
      .ok { s with
            todoByUser :=
              mapAdjust s.todoByUser u
                (fun v => v.filter (fun item => item.id ≠ i)) } := by
  simp [delete_todo, delete_todo_run, commit, hid]

/-- Inversion for a successful `add_todo`: the payload was within bounds, the
counter advanced by exactly one, and the caller's entry either was freshly
created (tenant admission passed) or received one more record (per-user
quota passed). -/
theorem add_todo_ok_elim (u : PrincipalName) (t : String) (s s' : State)
    (h : add_todo u t s = .ok s') :
    t.length ≤ MAX_TODO_CHARS ∧ s'.nextTodo = s.nextTodo + 1 ∧
      ((mapGet s.todoByUser u = none ∧ get_user_count s < MAX_USERS ∧
        s'.todoByUser =
          s.todoByUser ++ [(u, [{ id := s.nextTodo + 1, task := t }])]) ∨
       (∃ v, mapGet s.todoByUser u = some v ∧ v.length < MAX_TODO_PER_USER ∧
        s'.todoByUser =
          mapAdjust s.todoByUser u
            (fun l => l ++ [{ id := s.nextTodo + 1, task := t }]))) := by
  by_cases h1 : MAX_TODO_CHARS < t.length
  · rw [add_todo_payload u t s h1] at h
    exact absurd h (by simp)
  · have hlen : t.length ≤ MAX_TODO_CHARS := Nat.not_lt.mp h1
    cases hm : mapGet s.todoByUser u with
    | none =>
        by_cases h2 : get_user_count s < MAX_USERS
        · rw [add_todo_new_ok u t s hlen hm h2] at h
          have h3 := (Except.ok.injEq _ _).mp h
          refine ⟨hlen, ?_, Or.inl ⟨rfl, h2, ?_⟩⟩ <;> rw [← h3]
        · rw [add_todo_users_full u t s hlen hm h2] at h
          exact absurd h (by simp)
    | some v =>
        by_cases h3 : v.length < MAX_TODO_PER_USER
        · rw [add_todo_old_ok u t s v hlen hm h3] at h
          have h4 := (Except.ok.injEq _ _).mp h
          refine ⟨hlen, ?_, Or.inr ⟨v, rfl, h3, ?_⟩⟩ <;> rw [← h4]
        · rw [add_todo_user_full u t s v hlen hm h3] at h
          exact absurd h (by simp)

/-- Inversion for a successful `update_todo`: both checks passed and the
caller's entry (if any) had its first matching record's task replaced. -/
theorem update_todo_ok_elim (u : PrincipalName) (td : Todo) (s s' : State)
    (h : update_todo u td s = .ok s') :
    td.task.length ≤ MAX_TODO_CHARS ∧ is_id_valid s td.id = true ∧
      s' = { s with todoByUser := mapAdjust s.todoByUser u (updateFirst td) } := by
  by_cases h1 : MAX_TODO_CHARS < td.task.length
  · rw [update_todo_payload u td s h1] at h
    exact absurd h (by simp)
  · have hlen : td.task.length ≤ MAX_TODO_CHARS := Nat.not_lt.mp h1
    cases hid : is_id_valid s td.id with
    | false =>
        rw [update_todo_invalid u td s hlen hid] at h
        exact absurd h (by simp)
    | true =>
        rw [update_todo_ok u td s hlen hid] at h
        exact ⟨hlen, rfl, ((Except.ok.injEq _ _).mp h).symm⟩

/-- Inversion for a successful `delete_todo`: the id passed the validity
gate and every record with that id was removed from the caller's entry. -/
theorem delete_todo_ok_elim (u : PrincipalName) (i : Nat) (s s' : State)
    (h : delete_todo u i s = .ok s') :
    is_id_valid s i = true ∧
      s' = { s with
             todoByUser :=
               mapAdjust s.todoByUser u
                 (fun v => v.filter (fun item => item.id ≠ i)) } := by
  cases hid : is_id_valid s i with
  | false =>
      rw [delete_todo_invalid u i s hid] at h
      exact absurd h (by simp)
  | true =>
      rw [delete_todo_ok u i s hid] at h
      exact ⟨rfl, ((Except.ok.injEq _ _).mp h).symm⟩

/-! ## `applyOp` and `run` basics -/

theorem applyOp_add_of_ok (u : PrincipalName) (t : String) (s s' : State)
    (h : add_todo u t s = .ok s') : applyOp (.addOp u t) s = s' := by
  simp [applyOp, h]

theorem applyOp_add_of_error (u : PrincipalName) (t : String) (s : State)
    (e : TodoError) (h : add_todo u t s = .error e) :
    applyOp (.addOp u t) s = s := by
  simp [applyOp, h]

theorem applyOp_update_of_ok (u : PrincipalName) (td : Todo) (s s' : State)
    (h : update_todo u td s = .ok s') : applyOp (.updateOp u td) s = s' := by
  simp [applyOp, h]

theorem applyOp_update_of_error (u : PrincipalName) (td : Todo) (s : State)
    (e : TodoError) (h : update_todo u td s = .error e) :
    applyOp (.updateOp u td) s = s := by
  simp [applyOp, h]

theorem applyOp_delete_of_ok (u : PrincipalName) (i : Nat) (s s' : State)
    (h : delete_todo u i s = .ok s') : applyOp (.deleteOp u i) s = s' := by
  simp [applyOp, h]

theorem applyOp_delete_of_error (u : PrincipalName) (i : Nat) (s : State)
    (e : TodoError) (h : delete_todo u i s = .error e) :
    applyOp (.deleteOp u i) s = s := by
  simp [applyOp, h]

theorem run_nil (s : State) : run [] s = s := rfl

theorem run_cons (o : Op) (ops : List Op) (s : State) :
    run (o :: ops) s = run ops (applyOp o s) := rfl

/-- `nextTodo` after one operation: a successful add advances it by one,
everything else leaves it unchanged. -/
theorem applyOp_nextTodo (o : Op) (s : State) :
    (applyOp o s).nextTodo = s.nextTodo + 1 ∨ (applyOp o s).nextTodo = s.nextTodo := by
  cases o with
  | addOp u t =>
      cases h : add_todo u t s with
      | ok s' =>
          rw [applyOp_add_of_ok u t s s' h]
          exact Or.inl (add_todo_ok_elim u t s s' h).2.1
      | error e => rw [applyOp_add_of_error u t s e h]; exact Or.inr rfl
  | updateOp u td =>
      cases h : update_todo u td s with
      | ok s' =>
          rw [applyOp_update_of_ok u td s s' h]
          rw [(update_todo_ok_elim u td s s' h).2.2]
          exact Or.inr rfl
      | error e => rw [applyOp_update_of_error u td s e h]; exact Or.inr rfl
  | deleteOp u i =>
      cases h : delete_todo u i s with
      | ok s' =>
          rw [applyOp_delete_of_ok u i s s' h]
          rw [(delete_todo_ok_elim u i s s' h).2]
          exact Or.inr rfl
      | error e => rw [applyOp_delete_of_error u i s e h]; exact Or.inr rfl
  | listOp u => exact Or.inr rfl

theorem applyOp_update_nextTodo (u : PrincipalName) (td : Todo) (s : State) :
    (applyOp (.updateOp u td) s).nextTodo = s.nextTodo := by
  cases h : update_todo u td s with
  | ok s' =>
      rw [applyOp_update_of_ok u td s s' h, (update_todo_ok_elim u td s s' h).2.2]
  | error e => rw [applyOp_update_of_error u td s e h]

theorem applyOp_delete_nextTodo (u : PrincipalName) (i : Nat) (s : State) :
    (applyOp (.deleteOp u i) s).nextTodo = s.nextTodo := by
  cases h : delete_todo u i s with
  | ok s' =>
      rw [applyOp_delete_of_ok u i s s' h, (delete_todo_ok_elim u i s s' h).2]
  | error e => rw [applyOp_delete_of_error u i s e h]

/-- The Identity Allocator trace: during any sequence of operations the
issued ids are exactly the consecutive values following the starting
counter, and the final counter has advanced by their number. -/
theorem issuedIds_range (ops : List Op) (s : State) :
    issuedIds ops s =
      List.range' (s.nextTodo + 1) (issuedIds ops s).length ∧
    (run ops s).nextTodo = s.nextTodo + (issuedIds ops s).length := by
  induction ops generalizing s with
  | nil => simp [issuedIds, run_nil]
  | cons o rest ih =>
      cases o with
      | addOp u t =>
          cases h : add_todo u t s with
          | ok s' =>
              have helim := add_todo_ok_elim u t s s' h
              have happ : applyOp (.addOp u t) s = s' := applyOp_add_of_ok u t s s' h
              have hids : issuedIds (.addOp u t :: rest) s =
                  s'.nextTodo :: issuedIds rest s' := by
                simp [issuedIds, h, happ]
              rcases ih s' with ⟨ih1, ih2⟩
              constructor
              · rw [hids, helim.2.1, List.length_cons, List.range'_succ]
                refine congrArg (List.cons _) ?_
                have hstep : s'.nextTodo + 1 = s.nextTodo + 1 + 1 := by
                  rw [helim.2.1]
                rw [← hstep]
                exact ih1
              · rw [run_cons, happ, ih2, helim.2.1, hids]
                simp [List.length_cons]
                omega
          | error e =>
              have happ : applyOp (.addOp u t) s = s := applyOp_add_of_error u t s e h
              have hids : issuedIds (.addOp u t :: rest) s = issuedIds rest s := by
                simp [issuedIds, h, happ]
              rw [hids, run_cons, happ]
              exact ih s
      | updateOp u td =>
          have hids : issuedIds (.updateOp u td :: rest) s =
              issuedIds rest (applyOp (.updateOp u td) s) := by
            simp [issuedIds]
          rw [hids, run_cons]
          have := ih (applyOp (.updateOp u td) s)
          rwa [applyOp_update_nextTodo u td s] at this
      | deleteOp u i =>
          have hids : issuedIds (.deleteOp u i :: rest) s =
              issuedIds rest (applyOp (.deleteOp u i) s) := by
            simp [issuedIds]
          rw [hids, run_cons]
          have := ih (applyOp (.deleteOp u i) s)
          rwa [applyOp_delete_nextTodo u i s] at this
      | listOp u =>
          have hids : issuedIds (.listOp u :: rest) s = issuedIds rest s := by
            simp [issuedIds, applyOp]
          rw [hids, run_cons]
          have happ : applyOp (.listOp u) s = s := rfl
          rw [happ]
          exact ih s

/-! ## Invariant preservation -/

theorem StoreInv_initState : StoreInv initState := by
  refine ⟨?_, ?_, ?_, ?_, ?_, ?_⟩ <;> simp [initState, get_user_count, idsOf, MAX_USERS]

theorem StoreInv_add (u : PrincipalName) (t : String) (s s' : State)
    (h : add_todo u t s = .ok s') (hs : StoreInv s) : StoreInv s' := by
  obtain ⟨hc, he, ht, hb, hn, hk⟩ := hs
  obtain ⟨hlen, hnext, hcase⟩ := add_todo_ok_elim u t s s' h
  rcases hcase with ⟨hm, hcount, hmap⟩ | ⟨v, hm, hroom, hmap⟩
  · -- fresh tenant: the entry list gains `(u, [new record])` at the end
    have hids : idsOf s'.todoByUser =
        idsOf s.todoByUser ++ [s.nextTodo + 1] := by
      rw [hmap, idsOf_append]
      simp [idsOf_cons, idsOf_nil]
    have hperm : List.Perm (idsOf s'.todoByUser)
        ((s.nextTodo + 1) :: idsOf s.todoByUser) := by
      rw [hids]
      exact List.perm_append_comm
    refine ⟨?_, ?_, ?_, ?_, ?_, ?_⟩
    · simp only [get_user_count, hmap, List.length_append, List.length_cons,
        List.length_nil]
      simp [get_user_count] at hcount
      omega
    · intro p hp
      rw [hmap] at hp
      rcases List.mem_append.mp hp with hp | hp
      · exact he p hp
      · simp at hp
        simp [hp, MAX_TODO_PER_USER]
    · intro p hp td htd
      rw [hmap] at hp
      rcases List.mem_append.mp hp with hp | hp
      · exact ht p hp td htd
      · simp at hp
        rw [hp] at htd
        simp at htd
        rw [htd]
        exact hlen
    · intro i hi
      rw [hids] at hi
      rcases List.mem_append.mp hi with hi | hi
      · have := hb i hi
        omega
      · simp at hi
        omega
    · rw [hperm.nodup_iff, List.nodup_cons]
      refine ⟨fun hmem => ?_, hn⟩
      have := hb _ hmem
      omega
    · rw [hmap]
      have hkeys : (s.todoByUser ++
            [(u, [({ id := s.nextTodo + 1, task := t } : Todo)])]).map
          Prod.fst = s.todoByUser.map Prod.fst ++ [u] := by simp
      rw [hkeys]
      have hperm2 : List.Perm (s.todoByUser.map Prod.fst ++ [u])
          (u :: s.todoByUser.map Prod.fst) := List.perm_append_comm
      rw [hperm2.nodup_iff, List.nodup_cons]
      exact ⟨mapGet_none_not_mem_keys _ _ hm, hk⟩
  · -- existing tenant: its list gains one record at the end
    have hperm : List.Perm (idsOf s'.todoByUser)
        ((s.nextTodo + 1) :: idsOf s.todoByUser) := by
      rw [hmap]
      exact idsOf_mapAdjust_push s.todoByUser u v
        { id := s.nextTodo + 1, task := t } hm
    refine ⟨?_, ?_, ?_, ?_, ?_, ?_⟩
    · simp only [get_user_count, hmap, mapAdjust_length]
      exact hc
    · intro p hp
      rw [hmap] at hp
      rcases mem_mapAdjust _ _ _ p hp with hp | ⟨w, hw, hwmem, hpeq⟩
      · exact he p hp
      · rw [hm] at hw
        have hvw : w = v := by
          have := (Option.some.injEq _ _).mp hw
          exact this.symm
        rw [hpeq]
        simp [hvw]
        have : v.length < MAX_TODO_PER_USER := hroom
        omega
    · intro p hp td htd
      rw [hmap] at hp
      rcases mem_mapAdjust _ _ _ p hp with hp | ⟨w, hw, hwmem, hpeq⟩
      · exact ht p hp td htd
      · rw [hpeq] at htd
        simp at htd
        rcases htd with htd | htd
        · exact ht (u, w) hwmem td htd
        · rw [htd]
          exact hlen
    · intro i hi
      rw [hperm.mem_iff] at hi
      simp at hi
      rcases hi with hi | hi
      · omega
      · have := hb i hi
        omega
    · rw [hperm.nodup_iff, List.nodup_cons]
      refine ⟨fun hmem => ?_, hn⟩
      have := hb _ hmem
      omega
    · rw [hmap, mapAdjust_keys]
      exact hk

theorem StoreInv_update (u : PrincipalName) (td : Todo) (s s' : State)
    (h : update_todo u td s = .ok s') (hs : StoreInv s) : StoreInv s' := by
  obtain ⟨hc, he, ht, hb, hn, hk⟩ := hs
  obtain ⟨hlen, hid, rfl⟩ := update_todo_ok_elim u td s s' h
  have hids : idsOf (mapAdjust s.todoByUser u (updateFirst td)) =
      idsOf s.todoByUser :=
    idsOf_mapAdjust_congr _ _ _ (fun v => updateFirst_map_id td v)
  refine ⟨?_, ?_, ?_, ?_, ?_, ?_⟩
  · simp only [get_user_count, mapAdjust_length]
    exact hc
  · intro p hp
    rcases mem_mapAdjust _ _ _ p hp with hp | ⟨w, hw, hwmem, hpeq⟩
    · exact he p hp
    · rw [hpeq]
      simp [updateFirst_length]
      exact he (u, w) hwmem
  · intro p hp x hx
    rcases mem_mapAdjust _ _ _ p hp with hp | ⟨w, hw, hwmem, hpeq⟩
    · exact ht p hp x hx
    · rw [hpeq] at hx
      simp at hx
      rcases mem_updateFirst td w x hx with h1 | ⟨y, hy, h2⟩
      · exact ht (u, w) hwmem x h1
      · rw [h2]
        exact hlen
  · intro i hi
    simp only [hids] at hi
    exact hb i hi
  · simp only [hids]
    exact hn
  · simp only [mapAdjust_keys]
    exact hk

theorem StoreInv_delete (u : PrincipalName) (i : Nat) (s s' : State)
    (h : delete_todo u i s = .ok s') (hs : StoreInv s) : StoreInv s' := by
  obtain ⟨hc, he, ht, hb, hn, hk⟩ := hs
  obtain ⟨hid, rfl⟩ := delete_todo_ok_elim u i s s' h
  have hsub : List.Sublist
      (idsOf (mapAdjust s.todoByUser u
        (fun v => v.filter (fun item => item.id ≠ i))))
      (idsOf s.todoByUser) :=
    idsOf_mapAdjust_sublist _ _ _
      (fun v => List.Sublist.map Todo.id (List.filter_sublist v))
  refine ⟨?_, ?_, ?_, ?_, ?_, ?_⟩
  · simp only [get_user_count, mapAdjust_length]
    exact hc
  · intro p hp
    rcases mem_mapAdjust _ _ _ p hp with hp | ⟨w, hw, hwmem, hpeq⟩
    · exact he p hp
    · rw [hpeq]
      exact le_trans (List.length_filter_le _ _) (he (u, w) hwmem)
  · intro p hp x hx
    rcases mem_mapAdjust _ _ _ p hp with hp | ⟨w, hw, hwmem, hpeq⟩
    · exact ht p hp x hx
    · rw [hpeq] at hx
      exact ht (u, w) hwmem x (List.mem_of_mem_filter hx)
  · intro j hj
    exact hb j (hsub.mem hj)
  · exact hn.sublist hsub
  · simp only [mapAdjust_keys]
    exact hk

theorem StoreInv_applyOp (o : Op) (s : State) (hs : StoreInv s) :
    StoreInv (applyOp o s) := by
  cases o with
  | addOp u t =>
      cases h : add_todo u t s with
      | ok s' => rw [applyOp_add_of_ok u t s s' h]; exact StoreInv_add u t s s' h hs
      | error e => rw [applyOp_add_of_error u t s e h]; exact hs
  | updateOp u td =>
      cases h : update_todo u td s with
      | ok s' =>
          rw [applyOp_update_of_ok u td s s' h]
          exact StoreInv_update u td s s' h hs
      | error e => rw [applyOp_update_of_error u td s e h]; exact hs
  | deleteOp u i =>
      cases h : delete_todo u i s with
      | ok s' =>
          rw [applyOp_delete_of_ok u i s s' h]
          exact StoreInv_delete u i s s' h hs
      | error e => rw [applyOp_delete_of_error u i s e h]; exact hs
  | listOp u => exact hs

theorem StoreInv_run (ops : List Op) (s : State) (hs : StoreInv s) :
    StoreInv (run ops s) := by
  induction ops generalizing s with
  | nil => exact hs
  | cons o rest ih =>
      rw [run_cons]
      exact ih (applyOp o s) (StoreInv_applyOp o s hs)

/-! ## Further helper lemmas -/

theorem mapAdjust_id_of_get (m : List (PrincipalName × List Todo))
    (k : PrincipalName) (f : List Todo → List Todo) (v : List Todo)
    (hget : mapGet m k = some v) (hfix : f v = v) :
    mapAdjust m k f = m := by
  induction m with
  | nil => rfl
  | cons p rest ih =>
      obtain ⟨k', w⟩ := p
      by_cases h : k' = k
      · simp [mapGet, h] at hget
        simp [mapAdjust, h, hget, hfix]
      · simp [mapGet, h] at hget
        simp [mapAdjust, h, ih hget]

theorem mapAdjust_mapAdjust (m : List (PrincipalName × List Todo))
    (k : PrincipalName) (f g : List Todo → List Todo) :
    mapAdjust (mapAdjust m k f) k g = mapAdjust m k (fun v => g (f v)) := by
  induction m with
  | nil => rfl
  | cons p rest ih =>
      obtain ⟨k', w⟩ := p
      by_cases h : k' = k <;> simp [mapAdjust, h, ih]

/-- Exhaustive case analysis of `add_todo`: exactly one of the five outcomes
occurs, each together with the condition that selects it. -/
theorem add_todo_total (u : PrincipalName) (t : String) (s : State) :
    (MAX_TODO_CHARS < t.length ∧
      add_todo u t s = .error .payloadTooLarge) ∨
    (t.length ≤ MAX_TODO_CHARS ∧ mapGet s.todoByUser u = none ∧
      MAX_USERS ≤ get_user_count s ∧
      add_todo u t s = .error .capacityExceededUsers) ∨
    (t.length ≤ MAX_TODO_CHARS ∧ mapGet s.todoByUser u = none ∧
      get_user_count s < MAX_USERS ∧
      add_todo u t s =
        .ok { nextTodo := s.nextTodo + 1,
              todoByUser :=
                s.todoByUser ++ [(u, [{ id := s.nextTodo + 1, task := t }])] }) ∨
    (∃ v, t.length ≤ MAX_TODO_CHARS ∧ mapGet s.todoByUser u = some v ∧
      MAX_TODO_PER_USER ≤ v.length ∧
      add_todo u t s = .error .capacityExceededRecordsPerUser) ∨
    (∃ v, t.length ≤ MAX_TODO_CHARS ∧ mapGet s.todoByUser u = some v ∧
      v.length < MAX_TODO_PER_USER ∧
      add_todo u t s =
        .ok { nextTodo := s.nextTodo + 1,
              todoByUser :=
                mapAdjust s.todoByUser u
                  (fun l => l ++ [{ id := s.nextTodo + 1, task := t }]) }) := by
  by_cases h1 : MAX_TODO_CHARS < t.length
  · exact Or.inl ⟨h1, add_todo_payload u t s h1⟩
  · have hlen : t.length ≤ MAX_TODO_CHARS := Nat.not_lt.mp h1
    cases hm : mapGet s.todoByUser u with
    | none =>
        by_cases h2 : get_user_count s < MAX_USERS
        · exact Or.inr (Or.inr (Or.inl ⟨hlen, rfl, h2, add_todo_new_ok u t s hlen hm h2⟩))
        · exact Or.inr (Or.inl ⟨hlen, rfl, Nat.not_lt.mp h2,
            add_todo_users_full u t s hlen hm h2⟩)
    | some v =>
        by_cases h3 : v.length < MAX_TODO_PER_USER
        · exact Or.inr (Or.inr (Or.inr (Or.inr ⟨v, hlen, rfl, h3,
            add_todo_old_ok u t s v hlen hm h3⟩)))
        · exact Or.inr (Or.inr (Or.inr (Or.inl ⟨v, hlen, rfl, Nat.not_lt.mp h3,
            add_todo_user_full u t s v hlen hm h3⟩)))

/-- A successful `add_todo` also fixes the caller-visible reply to `()`. -/
theorem add_todo_reply_of_ok (u : PrincipalName) (t : String) (s s' : State)
    (h : add_todo u t s = .ok s') : add_todo_reply u t s = .ok () := by
  unfold add_todo commit at h
  unfold add_todo_reply
  cases hr : add_todo_run u t s with
  | ok s1 => rfl
  | panic e s1 => rw [hr] at h; exact absurd h (by simp)

theorem longTask_length : longTask.length = 1001 := by
  show (List.replicate 1001 'a').length = 1001
  simp

/-! ## Claim theorems -/

/-- C1: whenever `add_record` fails (with `PayloadTooLarge`,
`CapacityExceeded:Users`, or `CapacityExceeded:RecordsPerUser`), the whole
store — the tenant-to-records map and the Identity Allocator's global
counter — is exactly as it was before the call: the failed operation has no
observable effect and no partial mutation. -/
theorem C1_failed_add_leaves_store_unchanged (u : PrincipalName) (t : String)
    (s : State) (e : TodoError) (h : add_todo u t s = .error e) :
    (applyOp (.addOp u t) s).todoByUser = s.todoByUser ∧
    (applyOp (.addOp u t) s).nextTodo = s.nextTodo := by
  rw [applyOp_add_of_error u t s e h]
  exact ⟨rfl, rfl⟩

theorem C1_failed_add_leaves_store_unchanged_witness :
    (applyOp (.addOp [0] longTask) initState).todoByUser = initState.todoByUser ∧
    (applyOp (.addOp [0] longTask) initState).nextTodo = initState.nextTodo :=
  C1_failed_add_leaves_store_unchanged [0] longTask initState .payloadTooLarge
    (add_todo_payload [0] longTask initState (by rw [longTask_length]; decide))

/-- C2: from the initial state (counter `0`) the ids issued by successful
`add_record` calls across any operation sequence are exactly `1, 2, …, n`
(so the first issued id is `1`, ids are strictly increasing and pairwise
distinct — across all tenants, live or deleted), the global counter advances
by exactly one per successful add (final counter `= n`), and the ids of the
records in the resulting store are pairwise distinct. -/
theorem C2_issued_ids_strictly_increasing (ops : List Op) :
    issuedIds ops initState =
      List.range' 1 (issuedIds ops initState).length ∧
    List.Pairwise (· < ·) (issuedIds ops initState) ∧
    (issuedIds ops initState).Nodup ∧
    (run ops initState).nextTodo = (issuedIds ops initState).length ∧
    (idsOf (run ops initState).todoByUser).Nodup := by
  obtain ⟨h1, h2⟩ := issuedIds_range ops initState
  have h1' : issuedIds ops initState =
      List.range' 1 (issuedIds ops initState).length := by
    simpa [initState] using h1
  have hInv := StoreInv_run ops initState StoreInv_initState
  refine ⟨h1', ?_, ?_, by simpa [initState] using h2, hInv.2.2.2.2.1⟩
  · rw [h1']
    exact List.pairwise_lt_range' 1 _
  · rw [h1']
    exact List.nodup_range' 1 _

/-- C5: after any sequence of operations from the initial state the store
satisfies the quota invariants: at most `MAX_USERS` tenant entries, at most
`MAX_TODO_PER_USER` records per tenant, and every stored task within
`MAX_TODO_CHARS` characters. -/
theorem C5_quota_invariants (ops : List Op) :
    get_user_count (run ops initState) ≤ MAX_USERS ∧
    (∀ p ∈ (run ops initState).todoByUser,
      p.2.length ≤ MAX_TODO_PER_USER) ∧
    (∀ p ∈ (run ops initState).todoByUser, ∀ td ∈ p.2,
      td.task.length ≤ MAX_TODO_CHARS) := by
  have hInv := StoreInv_run ops initState StoreInv_initState
  exact ⟨hInv.1, hInv.2.1, hInv.2.2.1⟩

theorem C5_quota_invariants_witness :
    get_user_count (run [.addOp [0] "a"] initState) ≤ MAX_USERS ∧
    (([0], [({ id := 1, task := "a" } : Todo)]) :
        PrincipalName × List Todo).2.length ≤ MAX_TODO_PER_USER ∧
    ({ id := 1, task := "a" } : Todo).task.length ≤ MAX_TODO_CHARS := by
  have h := C5_quota_invariants [.addOp [0] "a"]
  have hmem : (([0], [({ id := 1, task := "a" } : Todo)]) :
      PrincipalName × List Todo) ∈ (run [.addOp [0] "a"] initState).todoByUser := by
    decide
  exact ⟨h.1, h.2.1 _ hmem, h.2.2 _ hmem _ (by decide)⟩

/-- C3 counterexample: the claim says a successful `add_record` "returns the
new Record to the caller", but the source signature is
`fn add_todo(task: String)` — the reply is the unit value.  Two successful
adds with different texts produce identical replies, and the reply type
`Unit` is not the record type `Todo`. -/
theorem C3_counterexample :
    add_todo_reply [0] "hello" initState = .ok () ∧
    add_todo_reply [0] "other" initState = add_todo_reply [0] "hello" initState ∧
    (Unit : Type) ≠ Todo := by
  refine ⟨rfl, rfl, fun h => ?_⟩
  have hsub : Subsingleton Todo := h ▸ (inferInstance : Subsingleton Unit)
  have h2 := @Subsingleton.elim Todo hsub
    { id := 0, task := "" } { id := 1, task := "" }
  simp at h2

/-- C3 amended: for every tenant `t` and text `x` accepted by `add_record`,
the call appends a record `{fresh id, x}` at the end of `t`'s sequence
(creating `t`'s entry if absent), leaves every other tenant's list
unaffected, and replies to the caller with the unit value (the source
returns no record payload). -/
theorem C3_successful_add_appends (u : PrincipalName) (t : String)
    (s s' : State) (h : add_todo u t s = .ok s') :
    get_todos u s' = get_todos u s ++ [{ id := s.nextTodo + 1, task := t }] ∧
    (∀ v : PrincipalName, v ≠ u → get_todos v s' = get_todos v s) ∧
    add_todo_reply u t s = .ok () := by
  obtain ⟨hlen, hnext, hcase⟩ := add_todo_ok_elim u t s s' h
  refine ⟨?_, ?_, add_todo_reply_of_ok u t s s' h⟩
  · rcases hcase with ⟨hm, hcount, hmap⟩ | ⟨v, hm, hroom, hmap⟩
    · rw [get_todos, get_todos, hmap, mapGet_append_self s.todoByUser u _ hm, hm]
      rfl
    · rw [get_todos, get_todos, hmap, mapGet_mapAdjust_self, hm]
      rfl
  · intro v hv
    rcases hcase with ⟨hm, hcount, hmap⟩ | ⟨w, hm, hroom, hmap⟩
    · rw [get_todos, get_todos, hmap, mapGet_append_ne s.todoByUser u v _ hv]
    · rw [get_todos, get_todos, hmap, mapGet_mapAdjust_ne s.todoByUser u v _ hv]

theorem C3_successful_add_appends_witness :
    get_todos [0] helloState =
      get_todos [0] initState ++ [{ id := 1, task := "hello" }] ∧
    get_todos [1] helloState = get_todos [1] initState ∧
    add_todo_reply [0] "hello" initState = .ok () := by
  have h := C3_successful_add_appends [0] "hello" initState helloState rfl
  exact ⟨h.1, h.2.1 [1] (by decide), h.2.2⟩

/-- C4: `add_record(t, x)` fails exactly when the payload is over the limit
(`PayloadTooLarge`), or `t` is new and the tenant count has reached
`MAX_USERS` (`CapacityExceeded:Users`), or `t`'s record count has reached
`MAX_TODO_PER_USER` (`CapacityExceeded:RecordsPerUser`, checked after tenant
admission — a freshly admitted tenant has zero records, so only an existing
entry can trip it); otherwise the call succeeds. -/
theorem C4_add_failure_conditions (u : PrincipalName) (t : String) (s : State) :
    (add_todo u t s = .error .payloadTooLarge ↔ MAX_TODO_CHARS < t.length) ∧
    (add_todo u t s = .error .capacityExceededUsers ↔
      t.length ≤ MAX_TODO_CHARS ∧ mapGet s.todoByUser u = none ∧
      MAX_USERS ≤ get_user_count s) ∧
    (add_todo u t s = .error .capacityExceededRecordsPerUser ↔
      t.length ≤ MAX_TODO_CHARS ∧
      ∃ v, mapGet s.todoByUser u = some v ∧ MAX_TODO_PER_USER ≤ v.length) ∧
    ((∃ s', add_todo u t s = .ok s') ↔
      t.length ≤ MAX_TODO_CHARS ∧
      (mapGet s.todoByUser u = none → get_user_count s < MAX_USERS) ∧
      (∀ v, mapGet s.todoByUser u = some v →
        v.length < MAX_TODO_PER_USER)) := by
  refine ⟨?_, ?_, ?_, ?_⟩
  · constructor
    · intro h
      rcases add_todo_total u t s with
        ⟨h1, heq⟩ | ⟨h1, hm, h2, heq⟩ | ⟨h1, hm, h2, heq⟩ |
        ⟨v, h1, hm, h2, heq⟩ | ⟨v, h1, hm, h2, heq⟩ <;>
        rw [heq] at h <;> first | exact h1 | simp at h
    · exact add_todo_payload u t s
  · constructor
    · intro h
      rcases add_todo_total u t s with
        ⟨h1, heq⟩ | ⟨h1, hm, h2, heq⟩ | ⟨h1, hm, h2, heq⟩ |
        ⟨v, h1, hm, h2, heq⟩ | ⟨v, h1, hm, h2, heq⟩ <;>
        rw [heq] at h <;> first | exact ⟨h1, hm, h2⟩ | simp at h
    · rintro ⟨hlen, hm, hge⟩
      exact add_todo_users_full u t s hlen hm (Nat.not_lt.mpr hge)
  · constructor
    · intro h
      rcases add_todo_total u t s with
        ⟨h1, heq⟩ | ⟨h1, hm, h2, heq⟩ | ⟨h1, hm, h2, heq⟩ |
        ⟨v, h1, hm, h2, heq⟩ | ⟨v, h1, hm, h2, heq⟩ <;>
        rw [heq] at h <;> first | exact ⟨h1, v, hm, h2⟩ | simp at h
    · rintro ⟨hlen, v, hm, hge⟩
      exact add_todo_user_full u t s v hlen hm (Nat.not_lt.mpr hge)
  · constructor
    · rintro ⟨s', h⟩
      rcases add_todo_total u t s with
        ⟨h1, heq⟩ | ⟨h1, hm, h2, heq⟩ | ⟨h1, hm, h2, heq⟩ |
        ⟨v, h1, hm, h2, heq⟩ | ⟨v, h1, hm, h2, heq⟩ <;> rw [heq] at h
      · simp at h
      · simp at h
      · exact ⟨h1, fun _ => h2, fun v hv => by rw [hm] at hv; simp at hv⟩
      · simp at h
      · refine ⟨h1, fun hnone => by rw [hm] at hnone; simp at hnone,
          fun w hw => ?_⟩
        rw [hm] at hw
        have : w = v := by
          have := (Option.some.injEq _ _).mp hw
          exact this.symm
        rw [this]
        exact h2
    · rintro ⟨hlen, himp1, himp2⟩
      cases hm : mapGet s.todoByUser u with
      | none => exact ⟨_, add_todo_new_ok u t s hlen hm (himp1 hm)⟩
      | some v => exact ⟨_, add_todo_old_ok u t s v hlen hm (himp2 v hm)⟩

theorem C4_add_failure_conditions_witness :
    add_todo [1000] "x" fullState = .error .capacityExceededUsers ∧
    (∃ s', add_todo [999] "x" almostFullState = .ok s') := by
  have hnone : mapGet fullState.todoByUser [1000] = none := by decide
  have hnone2 : mapGet almostFullState.todoByUser [999] = none := by decide
  constructor
  · exact (C4_add_failure_conditions [1000] "x" fullState).2.1.mpr
      ⟨by decide, hnone, by decide⟩
  · exact (C4_add_failure_conditions [999] "x" almostFullState).2.2.2.mpr
      ⟨by decide, fun _ => by decide,
       fun v hv => by rw [hnone2] at hv; simp at hv⟩

/-- C6 counterexample: with one tenant the bound is `500 × 1`, so id `600`
fails the gate; yet `update_record` on id `600` with a 1001-character text
fails with `PayloadTooLarge`, not `InvalidId` — the payload check runs
before the id check, refuting "every update_record or delete_record call
with an id ≥ that bound fails with InvalidId". -/
theorem C6_counterexample :
    is_id_valid oneUserState 600 = false ∧
    update_todo [7] { id := 600, task := longTask } oneUserState ≠
      .error .invalidId ∧
    update_todo [7] { id := 600, task := longTask } oneUserState =
      .error .payloadTooLarge := by
  have hpay : update_todo [7] { id := 600, task := longTask } oneUserState =
      .error .payloadTooLarge :=
    update_todo_payload [7] { id := 600, task := longTask } oneUserState
      (by rw [longTask_length]; decide)
  refine ⟨by decide, ?_, hpay⟩
  rw [hpay]
  simp

/-- C6 amended: `is_valid_id(id)` holds iff
`id < MAX_RECORDS_PER_USER × current_tenant_count`; every `delete_record`
with an id ≥ that bound fails with `InvalidId` regardless of whether such a
record exists, and every `update_record` with an id ≥ that bound fails —
with `InvalidId` when the text is within the payload limit, and with
`PayloadTooLarge` otherwise (the payload check precedes the id check). -/
theorem C6_validity_gate (s : State) (u : PrincipalName) (i : Nat)
    (td : Todo) :
    (is_id_valid s i = true ↔ i < MAX_TODO_PER_USER * get_user_count s) ∧
    (is_id_valid s i = false → delete_todo u i s = .error .invalidId) ∧
    (is_id_valid s td.id = false → td.task.length ≤ MAX_TODO_CHARS →
      update_todo u td s = .error .invalidId) ∧
    (MAX_TODO_CHARS < td.task.length →
      update_todo u td s = .error .payloadTooLarge) := by
  refine ⟨?_, ?_, ?_, ?_⟩
  · simp [is_id_valid]
  · exact delete_todo_invalid u i s
  · intro hid hlen
    exact update_todo_invalid u td s hlen hid
  · exact update_todo_payload u td s

theorem C6_validity_gate_witness :
    (is_id_valid oneUserState 3 = true ↔
      3 < MAX_TODO_PER_USER * get_user_count oneUserState) ∧
    delete_todo [7] 600 oneUserState = .error .invalidId ∧
    update_todo [7] { id := 600, task := "b" } oneUserState =
      .error .invalidId := by
  refine ⟨(C6_validity_gate oneUserState [7] 3
    { id := 600, task := "b" }).1, ?_, ?_⟩
  · exact (C6_validity_gate oneUserState [7] 600
      { id := 600, task := "b" }).2.1 (by decide)
  · exact (C6_validity_gate oneUserState [7] 600
      { id := 600, task := "b" }).2.2.1 (by decide) (by decide)

theorem mapAdjust_congr (m : List (PrincipalName × List Todo))
    (k : PrincipalName) (f g : List Todo → List Todo)
    (h : ∀ v, f v = g v) : mapAdjust m k f = mapAdjust m k g := by
  induction m with
  | nil => rfl
  | cons p rest ih =>
      obtain ⟨k', v⟩ := p
      by_cases h1 : k' = k <;> simp [mapAdjust, h1, h, ih]

/-- C7: an oversized `update_record` fails with `PayloadTooLarge` and leaves
the store (hence every record's text) unchanged; a within-limit update on a
gate-passing id succeeds, replaces in place the text of the first record of
the caller whose id matches — never changing any id or any position — leaves
every other record and every other tenant unchanged, and is a silent no-op
(not an error) when the caller has no record with that id. -/
theorem C7_update_semantics (u : PrincipalName) (td : Todo) (s : State) :
    (MAX_TODO_CHARS < td.task.length →
      update_todo u td s = .error .payloadTooLarge ∧
      applyOp (.updateOp u td) s = s) ∧
    (td.task.length ≤ MAX_TODO_CHARS → is_id_valid s td.id = true →
      ∃ s', update_todo u td s = .ok s' ∧
        (get_todos u s').map Todo.id = (get_todos u s).map Todo.id ∧
        (∀ v, v ≠ u → get_todos v s' = get_todos v s) ∧
        (∀ (j : Nat) (td0 : Todo),
          (get_todos u s)[j]? = some td0 → td0.id ≠ td.id →
          (get_todos u s')[j]? = some td0) ∧
        (∀ (j : Nat) (td0 : Todo),
          (get_todos u s)[j]? = some td0 → td0.id = td.id →
          (∀ (k : Nat) (td1 : Todo), k < j → (get_todos u s)[k]? = some td1 →
            td1.id ≠ td.id) →
          (get_todos u s')[j]? = some { id := td0.id, task := td.task }) ∧
        ((∀ x ∈ get_todos u s, x.id ≠ td.id) → s' = s)) := by
  constructor
  · intro h
    exact ⟨update_todo_payload u td s h,
      applyOp_update_of_error u td s _ (update_todo_payload u td s h)⟩
  · intro hlen hid
    have key : get_todos u
        { s with todoByUser := mapAdjust s.todoByUser u (updateFirst td) } =
        updateFirst td (get_todos u s) := by
      cases hm : mapGet s.todoByUser u with
      | none => simp [get_todos, mapAdjust_of_none _ _ _ hm, hm, updateFirst]
      | some v => simp [get_todos, mapGet_mapAdjust_self, hm]
    refine ⟨_, update_todo_ok u td s hlen hid, ?_, ?_, ?_, ?_, ?_⟩
    · rw [key, updateFirst_map_id]
    · intro v hv
      simp [get_todos, mapGet_mapAdjust_ne s.todoByUser u v _ hv]
    · intro j td0 hj hne
      rw [key]
      exact updateFirst_getElem?_of_ne td _ j td0 hj hne
    · intro j td0 hj heq hfirst
      rw [key]
      exact updateFirst_getElem?_first td _ j td0 hj heq hfirst
    · intro hall
      cases hm : mapGet s.todoByUser u with
      | none => rw [mapAdjust_of_none _ _ _ hm]
      | some v =>
          have hv : get_todos u s = v := by simp [get_todos, hm]
          have hfix : updateFirst td v = v :=
            updateFirst_of_not_mem td v
              (fun x hx => hall x (by rw [hv]; exact hx))
          rw [mapAdjust_id_of_get _ _ _ v hm hfix]

theorem C7_update_semantics_witness :
    update_todo [7] { id := 3, task := "new" } oneUserState =
      .ok oneUserStateUpdated ∧
    (get_todos [7] oneUserStateUpdated)[0]? =
      some { id := 3, task := "new" } := by
  obtain ⟨s', h1, h2, h3, h4, h5, h6⟩ :=
    (C7_update_semantics [7] { id := 3, task := "new" } oneUserState).2
      (by decide) (by decide)
  have hcalc : update_todo [7] { id := 3, task := "new" } oneUserState =
      .ok oneUserStateUpdated := rfl
  have hs : s' = oneUserStateUpdated := by
    rw [h1] at hcalc
    exact (Except.ok.injEq _ _).mp hcalc
  subst hs
  refine ⟨h1, ?_⟩
  have := h5 0 { id := 3, task := "keep" } (by decide) rfl
    (fun k td1 hk _ => absurd hk (Nat.not_lt_zero k))
  simpa using this

/-- C8: with a gate-passing id, `delete_record` removes the record(s) with
that id from the caller's sequence, preserving the relative order of the
remaining records, and is a silent no-op when no such record exists; the
caller's list no longer contains the id afterwards, every other tenant is
untouched, and repeating the same call succeeds again without changing
anything. -/
theorem C8_delete_semantics (u : PrincipalName) (i : Nat) (s : State)
    (hid : is_id_valid s i = true) :
    ∃ s', delete_todo u i s = .ok s' ∧
      get_todos u s' = (get_todos u s).filter (fun td => td.id ≠ i) ∧
      (∀ v, v ≠ u → get_todos v s' = get_todos v s) ∧
      (∀ td ∈ get_todos u s', td.id ≠ i) ∧
      ((∀ td ∈ get_todos u s, td.id ≠ i) → s' = s) ∧
      delete_todo u i s' = .ok s' := by
  have key : get_todos u { s with todoByUser := mapAdjust s.todoByUser u (fun v => v.filter (fun item => item.id ≠ i)) } =
      (get_todos u s).filter (fun td => td.id ≠ i) := by
    cases hm : mapGet s.todoByUser u with
    | none => simp [get_todos, mapAdjust_of_none _ _ _ hm, hm]
    | some v => simp [get_todos, mapGet_mapAdjust_self, hm]
  refine ⟨_, delete_todo_ok u i s hid, key, ?_, ?_, ?_, ?_⟩
  · intro v hv
    simp [get_todos, mapGet_mapAdjust_ne s.todoByUser u v _ hv]
  · intro td htd
    rw [key] at htd
    have := List.mem_filter.mp htd
    simpa using this.2
  · intro hall
    cases hm : mapGet s.todoByUser u with
    | none => rw [mapAdjust_of_none _ _ _ hm]
    | some v =>
        have hv : get_todos u s = v := by simp [get_todos, hm]
        have hfix : v.filter (fun item => item.id ≠ i) = v :=
          List.filter_eq_self.mpr
            (fun x hx => by simpa using hall x (by rw [hv]; exact hx))
        rw [mapAdjust_id_of_get _ _ _ v hm hfix]
  · have hcount : is_id_valid { s with todoByUser := mapAdjust s.todoByUser u (fun v => v.filter (fun item => item.id ≠ i)) } i = true := by
      simpa [is_id_valid, get_user_count, mapAdjust_length] using hid
    rw [delete_todo_ok u i _ hcount]
    have hidem : ∀ v : List Todo,
        (v.filter (fun item => item.id ≠ i)).filter
          (fun item => item.id ≠ i) =
        v.filter (fun item => item.id ≠ i) := fun v =>
      List.filter_eq_self.mpr (fun a ha => (List.mem_filter.mp ha).2)
    have h2 : mapAdjust
        (mapAdjust s.todoByUser u
          (fun v => v.filter (fun item => item.id ≠ i))) u
        (fun v => v.filter (fun item => item.id ≠ i)) =
        mapAdjust s.todoByUser u
          (fun v => v.filter (fun item => item.id ≠ i)) := by
      rw [mapAdjust_mapAdjust]
      exact mapAdjust_congr _ _ _ _ hidem
    simp only [h2]

theorem C8_delete_semantics_witness :
    delete_todo [7] 3 oneUserState = .ok oneUserStateDeleted ∧
    get_todos [7] oneUserStateDeleted = [] ∧
    delete_todo [7] 3 oneUserStateDeleted = .ok oneUserStateDeleted := by
  obtain ⟨s', h1, h2, h3, h4, h5, h6⟩ :=
    C8_delete_semantics [7] 3 oneUserState (by decide)
  have hcalc : delete_todo [7] 3 oneUserState = .ok oneUserStateDeleted := rfl
  have hs : s' = oneUserStateDeleted := by
    rw [h1] at hcalc
    exact (Except.ok.injEq _ _).mp hcalc
  subst hs
  refine ⟨h1, ?_, h6⟩
  rw [h2]
  rfl

/-! ## The 500-add chain (reachability for C9) -/

theorem chainTodos_length (n : Nat) : (chainTodos n).length = n := by
  simp [chainTodos]

theorem chainTodos_concat (n : Nat) :
    chainTodos (n + 1) = chainTodos n ++ [{ id := n + 1, task := "a" }] := by
  unfold chainTodos
  rw [List.range'_concat]
  simp [Nat.add_comm]

theorem chain_step (n : Nat) (h2 : n < 500) :
    applyOp (.addOp [0] "a") (chainState n) = chainState (n + 1) := by
  have hget : mapGet (chainState n).todoByUser [0] = some (chainTodos n) := by
    simp [chainState, mapGet]
  have hroom : (chainTodos n).length < MAX_TODO_PER_USER := by
    rw [chainTodos_length]
    exact h2
  have hok := add_todo_old_ok [0] "a" (chainState n) (chainTodos n)
    (by decide) hget hroom
  rw [applyOp_add_of_ok [0] "a" (chainState n) _ hok]
  have hnext : (chainState n).nextTodo + 1 = n + 1 := rfl
  simp only [chainState, mapAdjust, if_pos rfl, hnext]
  rw [← chainTodos_concat]
  simp

theorem chain_run (k : Nat) :
    ∀ n, 1 ≤ n → n + k ≤ 500 →
      run (List.replicate k (.addOp [0] "a")) (chainState n) =
        chainState (n + k) := by
  induction k with
  | zero => intro n h1 h2; simp [run]
  | succ k ih =>
      intro n h1 h2
      rw [List.replicate_succ, run_cons, chain_step n (by omega)]
      have := ih (n + 1) (by omega) (by omega)
      rw [this]
      congr 1
      omega

theorem run_fiveHundredAdds :
    run fiveHundredAdds initState = chainState 500 := by
  have hfirst : applyOp (.addOp [0] "a") initState = chainState 1 := by
    have hok := add_todo_new_ok [0] "a" initState (by decide) (by decide)
      (by decide)
    rw [applyOp_add_of_ok [0] "a" initState _ hok]
    rfl
  have h500 : fiveHundredAdds = .addOp [0] "a" :: List.replicate 499 (.addOp [0] "a") := by
    rw [fiveHundredAdds]
    rfl
  rw [h500, run_cons, hfirst, chain_run 499 1 (by omega) (by omega)]

/-- C9: there are reachable states in which a record currently present in a
tenant's list fails the `is_valid_id` gate: after 500 successful adds by a
single tenant the record with id `500` is live, yet `500 < 500 × 1` is
false, so both `update_record` and `delete_record` on that record fail with
`InvalidId`. -/
theorem C9_live_record_fails_gate :
    ({ id := 500, task := "a" } : Todo) ∈
      get_todos [0] (run fiveHundredAdds initState) ∧
    is_id_valid (run fiveHundredAdds initState) 500 = false ∧
    update_todo [0] { id := 500, task := "b" }
      (run fiveHundredAdds initState) = .error .invalidId ∧
    delete_todo [0] 500 (run fiveHundredAdds initState) =
      .error .invalidId := by
  rw [run_fiveHundredAdds]
  have hvalid : is_id_valid (chainState 500) 500 = false := by decide
  refine ⟨?_, hvalid, ?_, ?_⟩
  · show ({ id := 500, task := "a" } : Todo) ∈ (mapGet (chainState 500).todoByUser [0]).getD []
    have hget : mapGet (chainState 500).todoByUser [0] = some (chainTodos 500) := by
      simp [chainState, mapGet]
    rw [hget]
    show ({ id := 500, task := "a" } : Todo) ∈ chainTodos 500
    unfold chainTodos
    refine List.mem_map.mpr ⟨500, ?_, rfl⟩
    simp
  · exact update_todo_invalid [0] { id := 500, task := "b" } (chainState 500)
      (by decide) hvalid
  · exact delete_todo_invalid [0] 500 (chainState 500) hvalid

/-- C10 counterexample: on the empty store an `update_record` whose text is
1001 characters long fails with `PayloadTooLarge`, not `InvalidId` — the
payload check runs before the id check, refuting "every call to
update_record or delete_record fails with InvalidId regardless of its
arguments". -/
theorem C10_counterexample :
    get_user_count initState = 0 ∧
    update_todo [0] { id := 0, task := longTask } initState =
      .error .payloadTooLarge ∧
    update_todo [0] { id := 0, task := longTask } initState ≠
      .error .invalidId := by
  have hpay : update_todo [0] { id := 0, task := longTask } initState =
      .error .payloadTooLarge :=
    update_todo_payload [0] { id := 0, task := longTask } initState
      (by rw [longTask_length]; decide)
  refine ⟨rfl, hpay, ?_⟩
  rw [hpay]
  simp

/-- C10 amended: when the store contains no tenant entries (in particular in
the initial state), `is_valid_id` is false for every id; every
`delete_record` fails with `InvalidId`; every `update_record` fails — with
`InvalidId` when its text is within the payload limit and with
`PayloadTooLarge` otherwise (the payload check runs first) — and
`list_records` returns the empty sequence without error. -/
theorem C10_empty_store_behaviour (s : State) (u : PrincipalName) (i : Nat)
    (td : Todo) (h : get_user_count s = 0) :
    is_id_valid s i = false ∧
    delete_todo u i s = .error .invalidId ∧
    (td.task.length ≤ MAX_TODO_CHARS →
      update_todo u td s = .error .invalidId) ∧
    (MAX_TODO_CHARS < td.task.length →
      update_todo u td s = .error .payloadTooLarge) ∧
    get_todos u s = [] := by
  have hvalid : ∀ j : Nat, is_id_valid s j = false := by
    intro j
    simp [is_id_valid, h]
  have hempty : s.todoByUser = [] := by
    have := h
    simp [get_user_count] at this
    exact this
  refine ⟨hvalid i, delete_todo_invalid u i s (hvalid i), ?_, ?_, ?_⟩
  · intro hlen
    exact update_todo_invalid u td s hlen (hvalid td.id)
  · exact update_todo_payload u td s
  · rw [get_todos, hempty]
    rfl

theorem C10_empty_store_behaviour_witness :
    is_id_valid initState 42 = false ∧
    delete_todo [9] 42 initState = .error .invalidId ∧
    update_todo [9] { id := 42, task := "x" } initState =
      .error .invalidId ∧
    get_todos [9] initState = [] := by
  have h := C10_empty_store_behaviour initState [9] 42
    { id := 42, task := "x" } rfl
  exact ⟨h.1, h.2.1, h.2.2.1 (by decide), h.2.2.2.2⟩
